import Mathlib

/-!
Shallow embedding of the `KnowledgeGraphManager` from `src/dist/index.js` of
the `mcp-memory-domain-knowledge` repository, together with proofs about its
operations.

Modelling conventions:

* JS strings are modelled by `String`; `toLowerCase` by Lean's ASCII
  `String.toLower` (all strings exercised by the claims are ASCII, and the
  query and the entity fields are lowered by the same function on both sides).
* The backing store is modelled one level above raw text: a file is a list of
  parsed record lines (`Line`), each line an ordered key/value object exactly
  as produced by `JSON.parse` of one non-blank line.  `JSON.stringify` and
  `JSON.parse` are mutually inverse on such objects, so nothing is lost by
  working with the parsed form.  Crucially, `JSON.stringify` drops keys whose
  value is `undefined`; `entityLine` reproduces that behaviour for the
  optional `subdomain` field.
* Each manager method performs `loadGraph`, a pure computation, and possibly
  `saveGraph`.  The pure computations carry the source method names
  (`createEntities`, `searchNodes`, ...); the `...Store` variants model the
  full method including its persistence effect, returning the new store
  contents and whether `saveGraph` was invoked.
-/

namespace MemoryKG

/-- Entity record of the knowledge graph (`src/dist/index.js`, entity shape
used throughout the manager; `subdomain` is optional in the TS declaration). -/
structure Entity where
  name : String
  entityType : String
  observations : List String
  subdomain : Option String
deriving DecidableEq

/-- Relation record: a directed labelled edge between entity names. -/
structure Relation where
  «from» : String
  «to» : String
  relationType : String
deriving DecidableEq

/-- In-memory graph aggregate: entity list and relation list, in file order. -/
structure KnowledgeGraph where
  entities : List Entity
  relations : List Relation
deriving DecidableEq

/-- Graph materialised when the backing file is absent or empty. -/
def emptyGraph : KnowledgeGraph := { entities := [], relations := [] }

/-- Value of one key of a parsed record line.  The manager only ever writes
string values and arrays of strings. -/
inductive JValue where
  | str (s : String)
  | strArr (xs : List String)
deriving DecidableEq

/-- One non-blank line of the backing store, after `JSON.parse`: an ordered
association list of keys to values, as `JSON.stringify` would emit it. -/
abbrev Line := List (String × JValue)

/-- Serialized form of one entity (`saveGraph`, lines 74-84).  The source
builds `{type, name, entityType, observations, subdomain}` and calls
`JSON.stringify`, which omits the `subdomain` key when its value is
`undefined`; the `match` reproduces exactly that. -/
def entityLine (e : Entity) : Line :=
  [("type", JValue.str "entity"),
   ("name", JValue.str e.name),
   ("entityType", JValue.str e.entityType),
   ("observations", JValue.strArr e.observations)] ++
  (match e.subdomain with
   | some s => [("subdomain", JValue.str s)]
   | none => [])

/-- Serialized form of one relation (`saveGraph`, line 85):
`JSON.stringify({type: "relation", ...r})`. -/
def relationLine (r : Relation) : Line :=
  [("type", JValue.str "relation"),
   ("from", JValue.str r.«from»),
   ("to", JValue.str r.«to»),
   ("relationType", JValue.str r.relationType)]

/-- Pure content of `saveGraph` (lines 71-89): every entity as one line, then
every relation as one line, replacing the store's previous contents. -/
def saveGraph (g : KnowledgeGraph) : List Line :=
  g.entities.map entityLine ++ g.relations.map relationLine

/-- String value of a key of a parsed line, when present with a string value. -/
def getStr (l : Line) (k : String) : Option String :=
  match l.lookup k with
  | some (JValue.str s) => some s
  | _ => none

/-- String-array value of a key of a parsed line, when present as an array. -/
def getStrArr (l : Line) (k : String) : Option (List String) :=
  match l.lookup k with
  | some (JValue.strArr xs) => some xs
  | _ => none

/-- Processing of one parsed line by `loadGraph` (lines 39-62): a record
tagged `"entity"` is appended to the entity list, a record tagged
`"relation"` to the relation list (its `type` key stripped), anything else is
skipped.  A tagged record missing one of the expected fields is also skipped
here; `saveGraph` never produces such a line. -/
def decodeLine (g : KnowledgeGraph) (l : Line) : KnowledgeGraph :=
  match getStr l "type" with
  | some "entity" =>
      match getStr l "name", getStr l "entityType", getStrArr l "observations" with
      | some n, some t, some obs =>
          { g with entities := g.entities ++
              [{ name := n, entityType := t, observations := obs,
                 subdomain := getStr l "subdomain" }] }
      | _, _, _ => g
  | some "relation" =>
      match getStr l "from", getStr l "to", getStr l "relationType" with
      | some f, some t, some rt =>
          { g with relations := g.relations ++ [{ «from» := f, «to» := t, relationType := rt }] }
      | _, _, _ => g
  | _ => g

/-- Pure content of `loadGraph` (lines 22-70): fold the store's parsed lines
into a graph, in file order, starting from the empty graph. -/
def loadGraph (store : List Line) : KnowledgeGraph :=
  store.foldl decodeLine emptyGraph

/-- Pure content of `createEntities` (lines 90-107): keep the input entities
whose name is not already present, append copies of them, and return the
newly added ones.  The existence check runs against the graph as loaded, so
it does not compare input entities against each other. -/
def createEntities (g : KnowledgeGraph) (entities : List Entity) :
    KnowledgeGraph × List Entity :=
  let newEntities := entities.filter (fun e =>
    ! g.entities.any (fun existingEntity => existingEntity.name == e.name))
  ({ g with entities := g.entities ++ newEntities.map (fun e =>
      { name := e.name, entityType := e.entityType,
        observations := e.observations, subdomain := e.subdomain }) },
   newEntities)

/-- Pure content of `createRelations` (lines 108-116): keep the input
relations whose `(from, to, relationType)` triple is not already present and
append them. -/
def createRelations (g : KnowledgeGraph) (relations : List Relation) :
    KnowledgeGraph × List Relation :=
  let newRelations := relations.filter (fun r =>
    ! g.relations.any (fun existingRelation =>
      existingRelation.«from» == r.«from» &&
      existingRelation.«to» == r.«to» &&
      existingRelation.relationType == r.relationType))
  ({ g with relations := g.relations ++ newRelations }, newRelations)

/-- One batch item of `addObservations`. -/
structure ObservationItem where
  entityName : String
  contents : List String
deriving DecidableEq

/-- One result record of `addObservations`. -/
structure ObservationResult where
  entityName : String
  addedObservations : List String
deriving DecidableEq

/-- Action of one `addObservations` item on the entity list (lines 120-126):
`find` locates the first entity with the given name and its observation array
is extended in place by the contents not already present; `none` models the
`find` miss that makes the method throw. -/
def addObsToEntities (es : List Entity) (n : String) (contents : List String) :
    Option (List Entity × List String) :=
  match es with
  | [] => none
  | e :: rest =>
      if e.name == n then
        let newObservations := contents.filter (fun content =>
          ! e.observations.contains content)
        some ({ e with observations := e.observations ++ newObservations } :: rest,
              newObservations)
      else
        match addObsToEntities rest n contents with
        | none => none
        | some (rest2, added) => some (e :: rest2, added)

/-- Pure content of `addObservations` (lines 117-130): items are processed in
order against the in-place mutated graph; the first item whose entity name is
not found makes the whole call throw (`Except.error` carries that name), and
in that case nothing is persisted. -/
def addObservations (g : KnowledgeGraph) (items : List ObservationItem) :
    Except String (KnowledgeGraph × List ObservationResult) :=
  match items with
  | [] => Except.ok (g, [])
  | o :: rest =>
      match addObsToEntities g.entities o.entityName o.contents with
      | none => Except.error o.entityName
      | some (es2, added) =>
          match addObservations { g with entities := es2 } rest with
          | Except.error n => Except.error n
          | Except.ok (g2, results) =>
              Except.ok (g2, { entityName := o.entityName, addedObservations := added } :: results)

/-- Pure content of `deleteEntities` (lines 131-136): drop every entity whose
name is listed and every relation with a listed endpoint. -/
def deleteEntities (g : KnowledgeGraph) (entityNames : List String) : KnowledgeGraph :=
  { entities := g.entities.filter (fun e => ! entityNames.contains e.name),
    relations := g.relations.filter (fun r =>
      ! entityNames.contains r.«from» && ! entityNames.contains r.«to») }

/-- One batch item of `deleteObservations`. -/
structure DeletionItem where
  entityName : String
  observations : List String
deriving DecidableEq

/-- Action of one `deleteObservations` item on the entity list (lines
139-144): the first entity with the given name, if any, has the listed
observation strings filtered out; a miss is silently skipped. -/
def removeObsFromEntities (es : List Entity) (n : String) (obs : List String) :
    List Entity :=
  match es with
  | [] => []
  | e :: rest =>
      if e.name == n then
        { e with observations := e.observations.filter (fun o => ! obs.contains o) } :: rest
      else e :: removeObsFromEntities rest n obs

/-- Pure content of `deleteObservations` (lines 137-146). -/
def deleteObservations (g : KnowledgeGraph) (deletions : List DeletionItem) :
    KnowledgeGraph :=
  { g with entities :=
      (deletions.foldl (fun es d => removeObsFromEntities es d.entityName d.observations)
        g.entities) }

/-- Pure content of `deleteRelations` (lines 147-153). -/
def deleteRelations (g : KnowledgeGraph) (relations : List Relation) : KnowledgeGraph :=
  { g with relations := g.relations.filter (fun r =>
      ! relations.any (fun delRelation =>
        r.«from» == delRelation.«from» &&
        r.«to» == delRelation.«to» &&
        r.relationType == delRelation.relationType)) }

/-- Character class of the JS regular expression `\s` (ECMA-262 WhiteSpace
and LineTerminator), used by the query splitter. -/
def jsWhitespace (c : Char) : Bool :=
  c == '\t' || c == '\n' || c == '\x0b' || c == '\x0c' || c == '\r' || c == ' ' ||
  c == ' ' || c == ' ' || (' ' ≤ c && c ≤ ' ') ||
  c == ' ' || c == ' ' || c == ' ' || c == ' ' ||
  c == '　' || c == '﻿'

/-- Character class of the splitting regex `[\s,&+]` of `searchNodes`. -/
def querySeparator (c : Char) : Bool :=
  jsWhitespace c || c == ',' || c == '&' || c == '+'

/-- Lower-casing used by `searchNodes` for the query and the entity surfaces:
`toLowerCase`, modelled character by character as ASCII lowering (written
structurally over the character list so that proofs can evaluate it; it is
extensionally `String.toLower`). -/
def toLowerStr (s : String) : String := String.mk (s.data.map Char.toLower)

/-- Splitting on maximal runs of separator characters, keeping only the
non-empty pieces; `acc` holds the reversed characters of the piece being
read.  This is the JS `split(/[\s,&+]+/)` composed with the empty filter of
`searchNodes`. -/
def splitRunsAux (p : Char → Bool) : List Char → List Char → List String
  | [], acc => if acc.isEmpty then [] else [String.mk acc.reverse]
  | c :: cs, acc =>
      if p c then
        (if acc.isEmpty then [] else [String.mk acc.reverse]) ++ splitRunsAux p cs []
      else
        splitRunsAux p cs (c :: acc)

/-- Keyword extraction of `searchNodes` (lines 164-170): lower-case the
query, split it on runs of the separator characters, and drop the empty
pieces (run-splitting leaves no empty piece to drop). -/
def searchKeywords (query : String) : List String :=
  (splitRunsAux querySeparator (toLowerStr query).data []).filter (fun k => k.length > 0)

/-- Substring test backing the JS `String.prototype.includes` calls. -/
def jsIncludes (hay needle : String) : Bool :=
  decide (needle.data <:+: hay.data)

/-- Entity filter of `searchNodes` (lines 177-218): lower-case the four
searchable surfaces and accept the entity when any keyword occurs in any of
them.  In the source the subdomain surface is `e.subdomain?.toLowerCase() ||
''`, which equals the lower-cased subdomain when present and `''` when
absent (a present-but-empty subdomain lower-cases to `''`, and `'' || ''`
is `''`). -/
def entityMatchesKeywords (keywords : List String) (e : Entity) : Bool :=
  let nameField := toLowerStr e.name
  let typeField := toLowerStr e.entityType
  let subdomainField :=
    match e.subdomain with
    | some s => toLowerStr s
    | none => ""
  let observationFields := e.observations.map toLowerStr
  (keywords.map (fun keyword =>
    let nameMatch := jsIncludes nameField keyword
    let typeMatch := jsIncludes typeField keyword
    let subdomainMatch := jsIncludes subdomainField keyword
    let observationMatch := observationFields.any (fun o => jsIncludes o keyword)
    nameMatch || typeMatch || subdomainMatch || observationMatch)).any id

/-- Pure content of `searchNodes` (lines 161-243): empty keyword set yields
the empty graph; otherwise the matched entities plus every relation of the
full graph whose two endpoints are names of matched entities. -/
def searchNodes (g : KnowledgeGraph) (query : String) : KnowledgeGraph :=
  let keywords := searchKeywords query
  if keywords.length == 0 then { entities := [], relations := [] }
  else
    let filteredEntities := g.entities.filter (entityMatchesKeywords keywords)
    let filteredEntityNames := filteredEntities.map Entity.name
    { entities := filteredEntities,
      relations := g.relations.filter (fun r =>
        filteredEntityNames.contains r.«from» && filteredEntityNames.contains r.«to») }

/-- Pure content of `openNodes` (lines 248-257): the entities whose name is
requested, plus every relation with both endpoints among them. -/
def openNodes (g : KnowledgeGraph) (names : List String) : KnowledgeGraph :=
  let filteredEntities := g.entities.filter (fun e => names.contains e.name)
  let filteredEntityNames := filteredEntities.map Entity.name
  { entities := filteredEntities,
    relations := g.relations.filter (fun r =>
      filteredEntityNames.contains r.«from» && filteredEntityNames.contains r.«to») }

/-- Full `createEntities` method including persistence (lines 90-107): load,
compute, and save only when something was added.  Returns the new store
contents, whether `saveGraph` ran, and the method's return value. -/
def createEntitiesStore (store : List Line) (entities : List Entity) :
    List Line × Bool × List Entity :=
  let g := loadGraph store
  let (g2, newEntities) := createEntities g entities
  if newEntities.length > 0 then (saveGraph g2, true, newEntities)
  else (store, false, newEntities)

/-- Full `createRelations` method including persistence (lines 108-116): the
source calls `saveGraph` unconditionally, with no guard on `newRelations`. -/
def createRelationsStore (store : List Line) (relations : List Relation) :
    List Line × Bool × List Relation :=
  let g := loadGraph store
  let (g2, newRelations) := createRelations g relations
  (saveGraph g2, true, newRelations)

/-- Full `addObservations` method including persistence (lines 117-130): the
per-item pass throws before `saveGraph` is reached, so on the error path the
store keeps its previous contents. -/
def addObservationsStore (store : List Line) (items : List ObservationItem) :
    List Line × Bool × Except String (List ObservationResult) :=
  match addObservations (loadGraph store) items with
  | Except.error n => (store, false, Except.error n)
  | Except.ok (g2, results) => (saveGraph g2, true, Except.ok results)

/-- Calls of the manager's operation surface, with their inputs. -/
inductive Op where
  | createEntitiesOp (entities : List Entity)
  | createRelationsOp (relations : List Relation)
  | addObservationsOp (items : List ObservationItem)
  | deleteEntitiesOp (names : List String)
  | deleteObservationsOp (deletions : List DeletionItem)
  | deleteRelationsOp (relations : List Relation)
  | readGraphOp
  | searchNodesOp (query : String)
  | openNodesOp (names : List String)

/-- Effect of one operation call on the stored graph content.  Queries leave
the store alone, and a failed `addObservations` throws before persisting, so
the stored graph is unchanged on that path. -/
def step (g : KnowledgeGraph) : Op → KnowledgeGraph
  | Op.createEntitiesOp es => (createEntities g es).1
  | Op.createRelationsOp rs => (createRelations g rs).1
  | Op.addObservationsOp items =>
      match addObservations g items with
      | Except.error _ => g
      | Except.ok (g2, _) => g2
  | Op.deleteEntitiesOp ns => deleteEntities g ns
  | Op.deleteObservationsOp ds => deleteObservations g ds
  | Op.deleteRelationsOp rs => deleteRelations g rs
  | Op.readGraphOp => g
  | Op.searchNodesOp _ => g
  | Op.openNodesOp _ => g

/-- Graph contents reachable from the empty store by operation calls whose
inputs all satisfy `P`. -/
inductive ReachableUnder (P : Op → Prop) : KnowledgeGraph → Prop where
  | init : ReachableUnder P emptyGraph
  | next {g : KnowledgeGraph} (op : Op) :
      ReachableUnder P g → P op → ReachableUnder P (step g op)

/-- Trivial input restriction: every call allowed. -/
def AnyOp (_ : Op) : Prop := True

/-- Graph contents reachable from the empty store by arbitrary calls. -/
def Reachable : KnowledgeGraph → Prop := ReachableUnder AnyOp

/-- Input restriction for the name-uniqueness invariant: each `createEntities`
batch carries pairwise-distinct entity names. -/
def DistinctNameInputs : Op → Prop
  | Op.createEntitiesOp es => (es.map Entity.name).Nodup
  | _ => True

/-- Input restriction for the observation-dedup invariant: created entities
carry duplicate-free observation lists and each `addObservations` item
carries duplicate-free contents. -/
def DupFreeObservationInputs : Op → Prop
  | Op.createEntitiesOp es => ∀ e ∈ es, e.observations.Nodup
  | Op.addObservationsOp items => ∀ i ∈ items, i.contents.Nodup
  | _ => True

/-- Specification-side matching predicate for one keyword against one entity,
following the spec's wording: the keyword is a substring of the lower-cased
name, the lower-cased entityType, the lower-cased subdomain (empty string
when absent), or some lower-cased observation string. -/
def KeywordMatchesEntity (keyword : String) (e : Entity) : Prop :=
  keyword.data <:+: (toLowerStr e.name).data ∨
  keyword.data <:+: (toLowerStr e.entityType).data ∨
  keyword.data <:+:
    (match e.subdomain with
     | some s => toLowerStr s
     | none => "").data ∨
  ∃ o ∈ e.observations, keyword.data <:+: (toLowerStr o).data

/-! Basic lemmas about the persistence round trip. -/

theorem decodeLine_entityLine (g : KnowledgeGraph) (e : Entity) :
    decodeLine g (entityLine e) = { g with entities := g.entities ++ [e] } := by
  rcases e with ⟨n, t, obs, sd⟩
  cases sd <;> rfl

theorem decodeLine_relationLine (g : KnowledgeGraph) (r : Relation) :
    decodeLine g (relationLine r) = { g with relations := g.relations ++ [r] } := by
  rfl

theorem foldl_decode_entityLines (es : List Entity) (g : KnowledgeGraph) :
    (es.map entityLine).foldl decodeLine g = { g with entities := g.entities ++ es } := by
  induction es generalizing g with
  | nil => simp
  | cons e es ih =>
      simp only [List.map_cons, List.foldl_cons, decodeLine_entityLine, ih,
        List.append_assoc, List.singleton_append]

theorem foldl_decode_relationLines (rs : List Relation) (g : KnowledgeGraph) :
    (rs.map relationLine).foldl decodeLine g = { g with relations := g.relations ++ rs } := by
  induction rs generalizing g with
  | nil => simp
  | cons r rs ih =>
      simp only [List.map_cons, List.foldl_cons, decodeLine_relationLine, ih,
        List.append_assoc, List.singleton_append]

theorem loadGraph_saveGraph (g : KnowledgeGraph) : loadGraph (saveGraph g) = g := by
  rcases g with ⟨es, rs⟩
  simp [loadGraph, saveGraph, List.foldl_append, foldl_decode_entityLines,
    foldl_decode_relationLines, emptyGraph]

/-! Characterizations of the pure operations. -/

theorem map_entity_eta (l : List Entity) :
    l.map (fun e => Entity.mk e.name e.entityType e.observations e.subdomain) = l := by
  induction l with
  | nil => rfl
  | cons e l ih => simp [ih]

theorem createEntities_eq (g : KnowledgeGraph) (es : List Entity) :
    createEntities g es =
      ({ g with entities := g.entities ++
          es.filter (fun e => ! g.entities.any (fun ex => ex.name == e.name)) },
       es.filter (fun e => ! g.entities.any (fun ex => ex.name == e.name))) := by
  simp [createEntities, map_entity_eta]

theorem addObsToEntities_names (es : List Entity) (n : String) (cs : List String)
    (es2 : List Entity) (added : List String)
    (h : addObsToEntities es n cs = some (es2, added)) :
    es2.map Entity.name = es.map Entity.name := by
  induction es generalizing es2 added with
  | nil => simp [addObsToEntities] at h
  | cons e rest ih =>
      by_cases he : (e.name == n) = true
      · simp [addObsToEntities, he] at h
        rcases h with ⟨h1, -⟩
        subst h1
        simp
      · simp only [addObsToEntities, he, Bool.false_eq_true, if_false] at h
        rcases h2 : addObsToEntities rest n cs with - | ⟨rest2, added2⟩ <;> rw [h2] at h
        · simp at h
        · simp at h
          rcases h with ⟨h1, -⟩
          subst h1
          simp [ih rest2 added2 h2]

theorem addObsToEntities_none_iff (es : List Entity) (n : String) (cs : List String) :
    addObsToEntities es n cs = none ↔ ∀ e ∈ es, e.name ≠ n := by
  induction es with
  | nil => simp [addObsToEntities]
  | cons e rest ih =>
      by_cases he : (e.name == n) = true
      · simp [addObsToEntities, he]
        exact fun h => absurd (by simpa using he) h
      · simp only [addObsToEntities, he]
        rcases h2 : addObsToEntities rest n cs with - | p
        · simp only [List.mem_cons]
          constructor
          · intro _ e' he'
            rcases he' with rfl | he'
            · simpa using he
            · exact (ih.mp h2) e' he'
          · intro _; rfl
        · rcases p with ⟨rest2, added2⟩
          simp only [List.mem_cons]
          constructor
          · intro h; cases h
          · intro h
            have : addObsToEntities rest n cs = none := ih.mpr (fun e' he' => h e' (Or.inr he'))
            rw [this] at h2; cases h2

theorem addObservations_names (items : List ObservationItem) (g g2 : KnowledgeGraph)
    (results : List ObservationResult)
    (h : addObservations g items = Except.ok (g2, results)) :
    g2.entities.map Entity.name = g.entities.map Entity.name := by
  induction items generalizing g results with
  | nil =>
      simp [addObservations] at h
      rw [h.1]
  | cons o rest ih =>
      rcases h1 : addObsToEntities g.entities o.entityName o.contents with - | ⟨es2, added⟩
      · simp [addObservations, h1] at h
      · simp only [addObservations, h1] at h
        rcases h2 : addObservations { g with entities := es2 } rest with n | ⟨g3, results3⟩
        · simp [h2] at h
        · simp only [h2] at h
          simp at h
          rcases h with ⟨rfl, -⟩
          rw [ih { g with entities := es2 } results3 h2]
          exact addObsToEntities_names _ _ _ _ _ h1

theorem removeObsFromEntities_names (es : List Entity) (n : String) (obs : List String) :
    (removeObsFromEntities es n obs).map Entity.name = es.map Entity.name := by
  induction es with
  | nil => rfl
  | cons e rest ih =>
      by_cases he : (e.name == n) = true
      · simp [removeObsFromEntities, he]
      · simp [removeObsFromEntities, he, ih]

theorem deleteObservations_names (g : KnowledgeGraph) (ds : List DeletionItem) :
    (deleteObservations g ds).entities.map Entity.name = g.entities.map Entity.name := by
  suffices h : ∀ (ds : List DeletionItem) (es : List Entity),
      (ds.foldl (fun es d => removeObsFromEntities es d.entityName d.observations) es).map
        Entity.name = es.map Entity.name by
    simpa [deleteObservations] using h ds g.entities
  intro ds
  induction ds with
  | nil => intro es; rfl
  | cons d rest ih =>
      intro es
      simp only [List.foldl_cons]
      rw [ih, removeObsFromEntities_names]

/-! Preservation lemmas for the two state invariants. -/

theorem step_names_nodup (g : KnowledgeGraph) (op : Op)
    (hg : (g.entities.map Entity.name).Nodup) (hop : DistinctNameInputs op) :
    ((step g op).entities.map Entity.name).Nodup := by
  cases op with
  | createEntitiesOp es =>
      have hes : (es.map Entity.name).Nodup := hop
      simp only [step, createEntities_eq, List.map_append]
      refine List.nodup_append.mpr ⟨hg, ?_, ?_⟩
      · exact ((List.filter_sublist es).map Entity.name).nodup hes
      · intro a ha ha2
        rcases List.mem_map.mp ha2 with ⟨e, he, rfl⟩
        have hp := (List.mem_filter.mp he).2
        rcases List.mem_map.mp ha with ⟨ex, hex, hx⟩
        simp only [Bool.not_eq_eq_eq_not, Bool.not_true, List.any_eq_false] at hp
        exact absurd (by simpa using hx) (by simpa using hp ex hex)
  | createRelationsOp rs => exact hg
  | addObservationsOp items =>
      rcases h : addObservations g items with n | ⟨g2, results⟩
      · simpa only [step, h] using hg
      · simp only [step, h]
        rw [addObservations_names items g g2 results h]
        exact hg
  | deleteEntitiesOp ns =>
      exact ((List.filter_sublist g.entities).map Entity.name).nodup hg
  | deleteObservationsOp ds =>
      simpa only [step, deleteObservations_names] using hg
  | deleteRelationsOp rs => exact hg
  | readGraphOp => exact hg
  | searchNodesOp q => exact hg
  | openNodesOp ns => exact hg

theorem addObsToEntities_nodup (es : List Entity) (n : String) (cs : List String)
    (es2 : List Entity) (added : List String)
    (hcs : cs.Nodup) (hes : ∀ e ∈ es, e.observations.Nodup)
    (h : addObsToEntities es n cs = some (es2, added)) :
    ∀ e ∈ es2, e.observations.Nodup := by
  induction es generalizing es2 added with
  | nil => simp [addObsToEntities] at h
  | cons e rest ih =>
      by_cases he : (e.name == n) = true
      · simp [addObsToEntities, he] at h
        rcases h with ⟨h1, -⟩
        subst h1
        intro e' he'
        rcases List.mem_cons.mp he' with rfl | hmem
        · refine List.Nodup.append (hes e (List.mem_cons_self e rest)) (hcs.filter _) ?_
          intro a ha ha2
          have hfa := (List.mem_filter.mp ha2).2
          simp at hfa
          exact hfa ha
        · exact hes e' (List.mem_cons_of_mem e hmem)
      · simp only [addObsToEntities, he, Bool.false_eq_true, if_false] at h
        rcases h2 : addObsToEntities rest n cs with - | ⟨rest2, added2⟩ <;> rw [h2] at h
        · simp at h
        · simp at h
          rcases h with ⟨h1, -⟩
          subst h1
          intro e' he'
          rcases List.mem_cons.mp he' with rfl | hmem
          · exact hes e' (List.mem_cons_self e' rest)
          · exact ih rest2 added2 (fun x hx => hes x (List.mem_cons_of_mem e hx)) h2 e' hmem

theorem addObservations_nodup (items : List ObservationItem) (g g2 : KnowledgeGraph)
    (results : List ObservationResult)
    (hitems : ∀ i ∈ items, i.contents.Nodup)
    (hg : ∀ e ∈ g.entities, e.observations.Nodup)
    (h : addObservations g items = Except.ok (g2, results)) :
    ∀ e ∈ g2.entities, e.observations.Nodup := by
  induction items generalizing g results with
  | nil =>
      simp [addObservations] at h
      rw [h.1] at hg
      exact hg
  | cons o rest ih =>
      rcases h1 : addObsToEntities g.entities o.entityName o.contents with - | ⟨es2, added⟩
      · simp [addObservations, h1] at h
      · simp only [addObservations, h1] at h
        rcases h2 : addObservations { g with entities := es2 } rest with n | ⟨g3, results3⟩
        · simp [h2] at h
        · simp only [h2] at h
          simp at h
          rcases h with ⟨rfl, -⟩
          have hes2 : ∀ e ∈ es2, e.observations.Nodup :=
            addObsToEntities_nodup g.entities o.entityName o.contents es2 added
              (hitems o (List.mem_cons_self o rest)) hg h1
          exact ih { g with entities := es2 } results3
            (fun i hi => hitems i (List.mem_cons_of_mem o hi)) hes2 h2

theorem removeObsFromEntities_nodup (es : List Entity) (n : String) (obs : List String)
    (hes : ∀ e ∈ es, e.observations.Nodup) :
    ∀ e ∈ removeObsFromEntities es n obs, e.observations.Nodup := by
  induction es with
  | nil => simp [removeObsFromEntities]
  | cons e rest ih =>
      by_cases he : (e.name == n) = true
      · simp only [removeObsFromEntities, he, if_true]
        intro e' he'
        rcases List.mem_cons.mp he' with rfl | hmem
        · exact (hes e (List.mem_cons_self e rest)).filter _
        · exact hes e' (List.mem_cons_of_mem e hmem)
      · simp only [removeObsFromEntities, he, Bool.false_eq_true, if_false]
        intro e' he'
        rcases List.mem_cons.mp he' with rfl | hmem
        · exact hes e' (List.mem_cons_self e' rest)
        · exact ih (fun x hx => hes x (List.mem_cons_of_mem e hx)) e' hmem

theorem deleteObservations_nodup (g : KnowledgeGraph) (ds : List DeletionItem)
    (hg : ∀ e ∈ g.entities, e.observations.Nodup) :
    ∀ e ∈ (deleteObservations g ds).entities, e.observations.Nodup := by
  suffices h : ∀ (ds : List DeletionItem) (es : List Entity),
      (∀ e ∈ es, e.observations.Nodup) →
      ∀ e ∈ ds.foldl (fun es d => removeObsFromEntities es d.entityName d.observations) es,
        e.observations.Nodup by
    simpa [deleteObservations] using h ds g.entities hg
  intro ds
  induction ds with
  | nil => intro es hes; exact hes
  | cons d rest ih =>
      intro es hes
      simp only [List.foldl_cons]
      exact ih _ (removeObsFromEntities_nodup es d.entityName d.observations hes)

theorem step_observations_nodup (g : KnowledgeGraph) (op : Op)
    (hg : ∀ e ∈ g.entities, e.observations.Nodup) (hop : DupFreeObservationInputs op) :
    ∀ e ∈ (step g op).entities, e.observations.Nodup := by
  cases op with
  | createEntitiesOp es =>
      simp only [step, createEntities_eq]
      intro e he
      rcases List.mem_append.mp he with hmem | hmem
      · exact hg e hmem
      · exact hop e (List.mem_of_mem_filter hmem)
  | createRelationsOp rs => exact hg
  | addObservationsOp items =>
      rcases h : addObservations g items with n | ⟨g2, results⟩
      · simpa only [step, h] using hg
      · simp only [step, h]
        exact addObservations_nodup items g g2 results hop hg h
  | deleteEntitiesOp ns =>
      intro e he
      exact hg e (List.mem_of_mem_filter he)
  | deleteObservationsOp ds => exact deleteObservations_nodup g ds hg
  | deleteRelationsOp rs => exact hg
  | readGraphOp => exact hg
  | searchNodesOp q => exact hg
  | openNodesOp ns => exact hg

/-! Characterization of the search operation. -/

theorem entityMatchesKeywords_iff (keywords : List String) (e : Entity) :
    entityMatchesKeywords keywords e = true ↔
      ∃ k ∈ keywords, KeywordMatchesEntity k e := by
  simp [entityMatchesKeywords, KeywordMatchesEntity, jsIncludes, List.any_map,
    Function.comp, or_assoc]

theorem searchNodes_of_empty (g : KnowledgeGraph) (query : String)
    (h : searchKeywords query = []) :
    searchNodes g query = { entities := [], relations := [] } := by
  simp [searchNodes, h]

theorem searchNodes_of_ne (g : KnowledgeGraph) (query : String)
    (h : searchKeywords query ≠ []) :
    searchNodes g query =
      { entities := g.entities.filter (entityMatchesKeywords (searchKeywords query)),
        relations := g.relations.filter (fun r =>
          ((g.entities.filter (entityMatchesKeywords (searchKeywords query))).map
              Entity.name).contains r.«from» &&
          ((g.entities.filter (entityMatchesKeywords (searchKeywords query))).map
              Entity.name).contains r.«to») } := by
  simp [searchNodes, List.length_eq_zero, h]

theorem addObservations_error_of_missing (items : List ObservationItem)
    (g : KnowledgeGraph)
    (h : ∃ i ∈ items, ∀ e ∈ g.entities, e.name ≠ i.entityName) :
    ∃ n, addObservations g items = Except.error n := by
  induction items generalizing g with
  | nil => simp at h
  | cons o rest ih =>
      rcases h1 : addObsToEntities g.entities o.entityName o.contents with - | ⟨es2, added⟩
      · exact ⟨o.entityName, by simp [addObservations, h1]⟩
      · rcases h with ⟨i, hi, hmiss⟩
        rcases List.mem_cons.mp hi with rfl | hi2
        · have hnone := (addObsToEntities_none_iff g.entities i.entityName i.contents).mpr hmiss
          rw [h1] at hnone
          cases hnone
        · have hmiss2 : ∀ e ∈ es2, e.name ≠ i.entityName := by
            intro e he hc
            have hmem : e.name ∈ es2.map Entity.name := List.mem_map_of_mem Entity.name he
            rw [addObsToEntities_names g.entities o.entityName o.contents es2 added h1] at hmem
            rcases List.mem_map.mp hmem with ⟨ex, hex, hx⟩
            exact hmiss ex hex (hx.trans hc)
          rcases ih { g with entities := es2 } ⟨i, hi2, hmiss2⟩ with ⟨n, hn⟩
          exact ⟨n, by simp [addObservations, h1, hn]⟩

/-! Settlement of the claims. -/

/-- Claim C8: save followed by load is the identity on graph content — for
every graph (entity subdomains possibly absent), saving it to the store and
re-loading reproduces an equal entity sequence and an equal relation
sequence; equivalently, save of a loaded store does not change the graph
content a subsequent load observes, with record order preserved. -/
theorem save_load_round_trip :
    (∀ g : KnowledgeGraph, loadGraph (saveGraph g) = g) ∧
    (∀ store : List Line, loadGraph (saveGraph (loadGraph store)) = loadGraph store) :=
  ⟨loadGraph_saveGraph, fun store => loadGraph_saveGraph (loadGraph store)⟩

/-- Counterexample to claim C9: an entity whose `subdomain` is absent is
serialized without the `subdomain` key — `JSON.stringify` drops keys whose
value is `undefined`, so the written record holds only the four other keys. -/
theorem subdomain_key_absent_when_unset :
    ¬ ("subdomain" ∈ (entityLine
        { name := "GlobalEntity", entityType := "GLOBAL",
          observations := ["Global entity"], subdomain := none }).map Prod.fst) := by
  decide

/-- Claim C9 (amended): `saveGraph` writes every entity record with the keys
`type`, `name`, `entityType`, and `observations`; the `subdomain` key is
present exactly when the entity's subdomain is set, because `JSON.stringify`
omits the key when its value is `undefined`. -/
theorem entityLine_keys (e : Entity) :
    (entityLine e).map Prod.fst =
      ["type", "name", "entityType", "observations"] ++
        (match e.subdomain with
         | some _ => ["subdomain"]
         | none => []) := by
  rcases e with ⟨n, t, obs, sd⟩
  cases sd <;> rfl

/-- Counterexample to claim C3: `createRelations` persists even when it adds
no relation.  On a store with one unparseable-shape line and one relation
line, a `createRelations` call whose only input triple already exists adds
nothing, yet `saveGraph` runs and the stored contents change (the skipped
line is dropped by the rewrite). -/
theorem createRelations_persists_without_additions :
    (createRelationsStore
        [[("type", JValue.str "bogus")], relationLine ⟨"a", "b", "r"⟩]
        [⟨"a", "b", "r"⟩]).2.2 = [] ∧
    (createRelationsStore
        [[("type", JValue.str "bogus")], relationLine ⟨"a", "b", "r"⟩]
        [⟨"a", "b", "r"⟩]).2.1 = true ∧
    (createRelationsStore
        [[("type", JValue.str "bogus")], relationLine ⟨"a", "b", "r"⟩]
        [⟨"a", "b", "r"⟩]).1 ≠
      [[("type", JValue.str "bogus")], relationLine ⟨"a", "b", "r"⟩] := by
  refine ⟨by decide, by decide, by decide⟩

/-- Claim C3 (amended): a `createEntities` call that adds nothing performs no
persist and leaves the backing store exactly as it was; a `createRelations`
call always persists — even when every input triple already exists — but in
that case the rewrite preserves the stored graph content (it only normalizes
the file). -/
theorem creation_persistence (store : List Line) (es : List Entity) (rs : List Relation)
    (hE : ∀ e ∈ es, ∃ ex ∈ (loadGraph store).entities, ex.name = e.name)
    (hR : ∀ r ∈ rs, r ∈ (loadGraph store).relations) :
    createEntitiesStore store es = (store, false, []) ∧
    (createRelationsStore store rs).2.1 = true ∧
    loadGraph (createRelationsStore store rs).1 = loadGraph store ∧
    (createRelationsStore store rs).2.2 = [] := by
  have hne : es.filter (fun e =>
      ! (loadGraph store).entities.any (fun ex => ex.name == e.name)) = [] := by
    rw [List.filter_eq_nil_iff]
    intro e he
    rcases hE e he with ⟨ex, hex, hname⟩
    simp [List.any_eq_true]
    exact ⟨ex, hex, hname⟩
  have hnr : rs.filter (fun r =>
      ! (loadGraph store).relations.any (fun ex =>
        ex.«from» == r.«from» && ex.«to» == r.«to» &&
        ex.relationType == r.relationType)) = [] := by
    rw [List.filter_eq_nil_iff]
    intro r hr
    simp [List.any_eq_true]
    exact ⟨r, hR r hr, rfl, rfl, rfl⟩
  refine ⟨?_, rfl, ?_, ?_⟩
  · simp [createEntitiesStore, createEntities_eq, hne]
  · simp only [createRelationsStore, createRelations, hnr, List.append_nil]
    exact loadGraph_saveGraph (loadGraph store)
  · simp only [createRelationsStore, createRelations, hnr]

/-- Witness for `creation_persistence` at a concrete store. -/
theorem creation_persistence_witness :
    createEntitiesStore (saveGraph ⟨[⟨"a", "T", ["o"], none⟩], [⟨"a", "a", "r"⟩]⟩)
        [⟨"a", "S", [], some "d"⟩] =
      (saveGraph ⟨[⟨"a", "T", ["o"], none⟩], [⟨"a", "a", "r"⟩]⟩, false, []) :=
  (creation_persistence (saveGraph ⟨[⟨"a", "T", ["o"], none⟩], [⟨"a", "a", "r"⟩]⟩)
    [⟨"a", "S", [], some "d"⟩] [⟨"a", "a", "r"⟩]
    (by decide) (by decide)).1

/-- Claim C4: when some item of an `addObservations` batch names an entity
that is not in the graph, the call raises the NotFound error and no persist
happens at all: the backing store keeps exactly its previous contents, even
when earlier items of the batch named existing entities. -/
theorem addObservations_missing_entity_aborts (store : List Line)
    (items : List ObservationItem)
    (h : ∃ i ∈ items, ∀ e ∈ (loadGraph store).entities, e.name ≠ i.entityName) :
    (addObservationsStore store items).1 = store ∧
    (addObservationsStore store items).2.1 = false ∧
    ∃ n, (addObservationsStore store items).2.2 = Except.error n := by
  rcases addObservations_error_of_missing items (loadGraph store) h with ⟨n, hn⟩
  exact ⟨by simp [addObservationsStore, hn], by simp [addObservationsStore, hn],
    n, by simp [addObservationsStore, hn]⟩

/-- Witness for `addObservations_missing_entity_aborts`: a two-item batch
whose first item names an existing entity and whose second does not. -/
theorem addObservations_missing_entity_aborts_witness :
    (addObservationsStore (saveGraph ⟨[⟨"a", "T", [], none⟩], []⟩)
        [⟨"a", ["x"]⟩, ⟨"b", ["y"]⟩]).1 =
      saveGraph ⟨[⟨"a", "T", [], none⟩], []⟩ :=
  (addObservations_missing_entity_aborts (saveGraph ⟨[⟨"a", "T", [], none⟩], []⟩)
    [⟨"a", ["x"]⟩, ⟨"b", ["y"]⟩] (by decide)).1

/-- Claim C5: `deleteEntities` removes exactly the entities whose name is in
the given list and exactly the relations with a listed endpoint, keeps every
other entity and relation in order, and is a no-op (not an error) when no
listed name occurs in the graph. -/
theorem deleteEntities_spec (g : KnowledgeGraph) (entityNames : List String) :
    (∀ e, e ∈ (deleteEntities g entityNames).entities ↔
        e ∈ g.entities ∧ e.name ∉ entityNames) ∧
    (∀ r, r ∈ (deleteEntities g entityNames).relations ↔
        r ∈ g.relations ∧ r.«from» ∉ entityNames ∧ r.«to» ∉ entityNames) ∧
    (deleteEntities g entityNames).entities.Sublist g.entities ∧
    (deleteEntities g entityNames).relations.Sublist g.relations ∧
    ((∀ e ∈ g.entities, e.name ∉ entityNames) →
      (∀ r ∈ g.relations, r.«from» ∉ entityNames ∧ r.«to» ∉ entityNames) →
      deleteEntities g entityNames = g) := by
  refine ⟨?_, ?_, ?_, ?_, ?_⟩
  · intro e
    simp [deleteEntities, List.mem_filter]
  · intro r
    simp [deleteEntities, List.mem_filter]
  · exact List.filter_sublist g.entities
  · exact List.filter_sublist g.relations
  · intro hE hR
    rcases g with ⟨es, rs⟩
    simp only [deleteEntities, KnowledgeGraph.mk.injEq]
    constructor
    · rw [List.filter_eq_self]
      intro e he
      simpa using hE e he
    · rw [List.filter_eq_self]
      intro r hr
      have := hR r hr
      simp only [Bool.and_eq_true]
      constructor <;> simp [this.1, this.2]

/-- Witness for `deleteEntities_spec`: the spec example with entities A, B,
relation A to B — deleting A removes A and the relation but keeps B — and a
no-op deletion of a name that occurs nowhere. -/
theorem deleteEntities_spec_witness :
    (⟨"B", "T", [], none⟩ ∈
        (deleteEntities ⟨[⟨"A", "T", [], none⟩, ⟨"B", "T", [], none⟩], [⟨"A", "B", "r"⟩]⟩
          ["A"]).entities ↔
      ⟨"B", "T", [], none⟩ ∈
          (⟨[⟨"A", "T", [], none⟩, ⟨"B", "T", [], none⟩], [⟨"A", "B", "r"⟩]⟩ :
            KnowledgeGraph).entities ∧
        ("B" : String) ∉ ["A"]) ∧
    (deleteEntities ⟨[⟨"B", "T", [], none⟩], [⟨"B", "B", "r"⟩]⟩ ["A"] =
      ⟨[⟨"B", "T", [], none⟩], [⟨"B", "B", "r"⟩]⟩) :=
  ⟨(deleteEntities_spec ⟨[⟨"A", "T", [], none⟩, ⟨"B", "T", [], none⟩], [⟨"A", "B", "r"⟩]⟩
      ["A"]).1 ⟨"B", "T", [], none⟩,
   (deleteEntities_spec ⟨[⟨"B", "T", [], none⟩], [⟨"B", "B", "r"⟩]⟩ ["A"]).2.2.2.2
     (by decide) (by decide)⟩

/-- Claim C6: `createEntities` is idempotent — when a first call adds the
entity `e` (its name was absent), that call returns `[e]`, a second call with
the same entity returns the empty newly-added list, leaves the graph
unmodified, and the graph holds exactly one entity named `e.name`. -/
theorem createEntities_idempotent (g : KnowledgeGraph) (e : Entity)
    (h : ∀ ex ∈ g.entities, ex.name ≠ e.name) :
    (createEntities g [e]).2 = [e] ∧
    (createEntities (createEntities g [e]).1 [e]).2 = [] ∧
    (createEntities (createEntities g [e]).1 [e]).1 = (createEntities g [e]).1 ∧
    ((createEntities g [e]).1.entities.filter (fun ex => ex.name == e.name)).length = 1 := by
  have hany : g.entities.any (fun ex => ex.name == e.name) = false := by
    simp only [List.any_eq_false]
    intro ex hex
    simpa using h ex hex
  have hfil : g.entities.filter (fun ex => ex.name == e.name) = [] := by
    rw [List.filter_eq_nil_iff]
    intro ex hex
    simpa using h ex hex
  refine ⟨?_, ?_, ?_, ?_⟩
  · simp [createEntities_eq, List.filter, hany]
  · simp [createEntities_eq, List.filter, hany, List.any_append]
  · rcases g with ⟨es, rs⟩
    simp [createEntities_eq, List.filter, hany, List.any_append]
  · simp [createEntities_eq, List.filter, hany, List.filter_append, hfil]

/-- Witness for `createEntities_idempotent` at a one-entity graph. -/
theorem createEntities_idempotent_witness :
    (createEntities (createEntities ⟨[⟨"b", "T", [], none⟩], []⟩ [⟨"a", "T", ["o"], some "d"⟩]).1
        [⟨"a", "T", ["o"], some "d"⟩]).2 = [] :=
  (createEntities_idempotent ⟨[⟨"b", "T", [], none⟩], []⟩ ⟨"a", "T", ["o"], some "d"⟩
    (by decide)).2.1

/-- Claim C10: entity identity is an exact, case-sensitive string comparison
outside search — a name `n` occurring nowhere in the graph (other names,
e.g. case variants of `n`, may occur) is treated as fresh by `createEntities`
deduplication, missing by `addObservations`, a no-op by `deleteEntities`, and
unmatched by `openNodes` — while `searchNodes` matches case-insensitively, as
the concrete lookup of `"a"` against an entity named `"A"` shows. -/
theorem exact_name_matching (g : KnowledgeGraph) (n : String) (cs : List String)
    (hE : ∀ e ∈ g.entities, e.name ≠ n)
    (hR : ∀ r ∈ g.relations, r.«from» ≠ n ∧ r.«to» ≠ n) :
    (∀ e : Entity, e.name = n → (createEntities g [e]).2 = [e]) ∧
    (∃ m, addObservations g [⟨n, cs⟩] = Except.error m) ∧
    deleteEntities g [n] = g ∧
    openNodes g [n] = { entities := [], relations := [] } ∧
    searchNodes ⟨[⟨"A", "T", [], none⟩], []⟩ "a" = ⟨[⟨"A", "T", [], none⟩], []⟩ := by
  refine ⟨?_, ?_, ?_, ?_, by decide⟩
  · intro e he
    have hany : g.entities.any (fun ex => ex.name == e.name) = false := by
      simp only [List.any_eq_false]
      intro ex hex
      simp [he]
      exact hE ex hex
    simp [createEntities_eq, List.filter, hany]
  · have hnone := (addObsToEntities_none_iff g.entities n cs).mpr hE
    exact ⟨n, by simp [addObservations, hnone]⟩
  · rcases g with ⟨es, rs⟩
    simp only [deleteEntities, KnowledgeGraph.mk.injEq]
    constructor
    · rw [List.filter_eq_self]
      intro e he
      simpa using hE e he
    · rw [List.filter_eq_self]
      intro r hr
      have := hR r hr
      simp [this.1, this.2]
  · have h1 : g.entities.filter (fun e => [n].contains e.name) = [] := by
      rw [List.filter_eq_nil_iff]
      intro e he
      simpa using hE e he
    simp [openNodes, h1]
    exact ⟨fun a ha => hE a ha, fun a _ x hx hxn => absurd hxn (hE x hx)⟩

/-- Witness for `exact_name_matching`: a graph whose only entity is named
`"A"` with a self-relation, probed with the lower-case name `"a"`. -/
theorem exact_name_matching_witness :
    deleteEntities ⟨[⟨"A", "T", [], none⟩], [⟨"A", "A", "r"⟩]⟩ ["a"] =
      ⟨[⟨"A", "T", [], none⟩], [⟨"A", "A", "r"⟩]⟩ :=
  (exact_name_matching ⟨[⟨"A", "T", [], none⟩], [⟨"A", "A", "r"⟩]⟩ "a" ["x"]
    (by decide) (by decide)).2.2.1

/-- Claim C1: `searchNodes` lower-cases the query, splits it on runs of
whitespace and the separators comma, ampersand, plus, and drops empty
tokens; an empty token set yields the empty result, and otherwise an entity
is returned exactly when some token occurs as a substring of its lower-cased
name, entityType, subdomain (empty when absent) or some lower-cased
observation, and the returned relations are exactly the relations of the
full graph both of whose endpoints name returned entities. -/
theorem searchNodes_spec (g : KnowledgeGraph) (query : String) :
    (searchKeywords query = [] →
      searchNodes g query = { entities := [], relations := [] }) ∧
    (searchKeywords query ≠ [] →
      (∀ e, e ∈ (searchNodes g query).entities ↔
          e ∈ g.entities ∧ ∃ k ∈ searchKeywords query, KeywordMatchesEntity k e) ∧
      (∀ r, r ∈ (searchNodes g query).relations ↔
          r ∈ g.relations ∧
          (∃ e ∈ (searchNodes g query).entities, e.name = r.«from») ∧
          (∃ e ∈ (searchNodes g query).entities, e.name = r.«to»))) := by
  refine ⟨searchNodes_of_empty g query, fun h => ⟨?_, ?_⟩⟩
  · intro e
    rw [searchNodes_of_ne g query h]
    simp only [List.mem_filter, entityMatchesKeywords_iff]
  · intro r
    rw [searchNodes_of_ne g query h]
    simp [List.mem_filter, List.mem_map, and_assoc]

/-- Witness for `searchNodes_spec`: the spec's own fixture — searching
`"comparison budget"` on a graph with a relation between the two matched
entities returns the relation as well. -/
theorem searchNodes_spec_witness :
    ⟨"ComparisonV3Coordinator", "BudgetCalculator", "feeds"⟩ ∈
      (searchNodes ⟨[⟨"ComparisonV3Coordinator", "CODE_COMPONENT", [], none⟩,
          ⟨"BudgetCalculator", "CODE_COMPONENT", ["calculation"], some "budget_management"⟩],
        [⟨"ComparisonV3Coordinator", "BudgetCalculator", "feeds"⟩]⟩
        "comparison budget").relations :=
  ((searchNodes_spec ⟨[⟨"ComparisonV3Coordinator", "CODE_COMPONENT", [], none⟩,
      ⟨"BudgetCalculator", "CODE_COMPONENT", ["calculation"], some "budget_management"⟩],
    [⟨"ComparisonV3Coordinator", "BudgetCalculator", "feeds"⟩]⟩ "comparison budget").2
    (by decide)).2 ⟨"ComparisonV3Coordinator", "BudgetCalculator", "feeds"⟩ |>.mpr
    (by decide)

/-- Counterexample to claim C2: a single `createEntities` call whose input
list contains two entities with the same fresh name adds both — the
existence filter only checks the loaded graph, not the batch itself — so a
reachable graph holds two entities named `"X"`. -/
theorem createEntities_duplicate_batch_breaks_uniqueness :
    Reachable (step emptyGraph (Op.createEntitiesOp
      [⟨"X", "T", [], none⟩, ⟨"X", "T", [], none⟩])) ∧
    ¬ ((step emptyGraph (Op.createEntitiesOp
      [⟨"X", "T", [], none⟩, ⟨"X", "T", [], none⟩])).entities.map Entity.name).Nodup :=
  ⟨ReachableUnder.next _ ReachableUnder.init True.intro, by decide⟩

/-- Claim C2 (amended): in every graph reachable from the empty store by the
operation surface, entity names are pairwise distinct, provided each
`createEntities` batch itself carries pairwise-distinct names (the code does
not deduplicate names within one batch). -/
theorem entity_names_unique (g : KnowledgeGraph)
    (h : ReachableUnder DistinctNameInputs g) :
    (g.entities.map Entity.name).Nodup := by
  induction h with
  | init => simp [emptyGraph]
  | next op hr hop ih => exact step_names_nodup _ op ih hop

/-- Witness for `entity_names_unique` after two creation calls. -/
theorem entity_names_unique_witness :
    ((step (step emptyGraph (Op.createEntitiesOp [⟨"X", "T", [], none⟩]))
        (Op.createEntitiesOp [⟨"X", "U", [], none⟩, ⟨"Y", "T", [], none⟩])).entities.map
      Entity.name).Nodup :=
  entity_names_unique _
    (ReachableUnder.next _
      (ReachableUnder.next _ ReachableUnder.init (by simp [DistinctNameInputs]))
      (by simp [DistinctNameInputs]))

/-- Counterexample to claim C7: `addObservations` filters the incoming
contents only against the entity's current observations, so a contents list
repeating one fresh string twice appends it twice, and a reachable graph
holds an entity whose observations are `["x", "x"]`. -/
theorem addObservations_duplicate_contents_breaks_dedup :
    Reachable (step (step emptyGraph (Op.createEntitiesOp [⟨"a", "T", [], none⟩]))
      (Op.addObservationsOp [⟨"a", ["x", "x"]⟩])) ∧
    ¬ (∀ e ∈ (step (step emptyGraph (Op.createEntitiesOp [⟨"a", "T", [], none⟩]))
        (Op.addObservationsOp [⟨"a", ["x", "x"]⟩])).entities, e.observations.Nodup) :=
  ⟨ReachableUnder.next _ (ReachableUnder.next _ ReachableUnder.init True.intro) True.intro,
   by decide⟩

/-- Claim C7 (amended): in every graph reachable from the empty store by the
operation surface, every entity's observation list is duplicate-free,
provided created entities carry duplicate-free observation lists and each
`addObservations` item carries duplicate-free contents (the code does not
deduplicate within one input list). -/
theorem observations_dupfree (g : KnowledgeGraph)
    (h : ReachableUnder DupFreeObservationInputs g) :
    ∀ e ∈ g.entities, e.observations.Nodup := by
  induction h with
  | init => simp [emptyGraph]
  | next op hr hop ih => exact step_observations_nodup _ op ih hop

/-- Witness for `observations_dupfree`: after a creation and an observation
call whose contents partly repeat the stored observation, the resulting
entity's observations are duplicate-free. -/
theorem observations_dupfree_witness :
    (Entity.mk "a" "T" ["o", "x"] none).observations.Nodup :=
  observations_dupfree
    (step (step emptyGraph (Op.createEntitiesOp [⟨"a", "T", ["o"], none⟩]))
      (Op.addObservationsOp [⟨"a", ["o", "x"]⟩]))
    (ReachableUnder.next _
      (ReachableUnder.next _ ReachableUnder.init (by simp [DupFreeObservationInputs]))
      (by simp [DupFreeObservationInputs]))
    (Entity.mk "a" "T" ["o", "x"] none) (by decide)

end MemoryKG
